import Mathlib

/-!
Verification of the log-shuttle l2met core: the receiver (register /
accept / transfer / persist pipeline, `l2met/receiver`) and the DataDog
outlet (convert / batch / deliver pipeline, `l2met/outlet`).

The Go source is embedded shallowly: each goroutine body becomes a pure
Lean function on explicit state, channels become lists, the `Mchan`
observability side channel and the logger become traces of emitted
events, and `sync.WaitGroup` becomes an integer counter (`Add(1)` is
`+ 1`, `Done()` is `- 1`).
-/

set_option autoImplicit false

namespace LogShuttle

/-- Modelled from the spec: `bucket.Id` (the `l2met/bucket` package is not
part of the shown source).  An immutable composite key: metric name,
unit, source, type, destination-credential token, tag set, time-window
start, resolution, ready-at.  Two identities are equal iff all fields
match. -/
structure BucketId where
  name : String
  units : String
  source : String
  type : String
  auth : String
  tags : String
  time : Int
  resolution : Int
  readyAt : Int
deriving DecidableEq, Repr

/-- Modelled from the spec: window age / delay of `bucket.Id.Delay` (the
`l2met/bucket` package is not part of the shown source): the elapsed
time, in deadline units, between the window's start and the moment the
measurement is observed. -/
def BucketId.delay (id : BucketId) (observed : Int) : Int :=
  observed - id.time

/-- Modelled from the spec: `bucket.Bucket` (the `l2met/bucket` package is
not part of the shown source): one identity plus accumulating numeric
state (a sum and a value list). -/
structure Bucket where
  id : BucketId
  sum : Int
  vals : List Int
deriving DecidableEq, Repr

/-- Modelled from the spec: `Bucket.Merge` combines the numeric state of
two buckets and keeps the receiving bucket's identity. -/
def Bucket.merge (a b : Bucket) : Bucket :=
  { id := a.id, sum := a.sum + b.sum, vals := a.vals ++ b.vals }

/-- The register's map `m map[bucket.Id]*bucket.Bucket`, embedded as an
association list from identity to bucket. -/
def Register := List (BucketId × Bucket)

/-- Keyed lookup in the register map (`r.Register.m[k]`, with `present`
telling whether the key exists). -/
def lookupReg : List (BucketId × Bucket) → BucketId → Option Bucket
  | [], _ => none
  | (k, v) :: rest, i => if k = i then some v else lookupReg rest i

/-- In-place update of an existing key of the register map
(`r.Register.m[k].Merge(b)` mutates the bucket stored under `k`). -/
def updateReg : List (BucketId × Bucket) → BucketId → Bucket → List (BucketId × Bucket)
  | [], _, _ => []
  | (k, v) :: rest, i, b =>
    if k = i then (k, b) :: rest else (k, v) :: updateReg rest i b

/-- What one call of `Receiver.addRegister` produces: the new register
map, the `Mchan.Count` events it emitted, and every `Merge(existing,
incoming)` invocation it performed (recorded so that the merge
precondition can be stated). -/
structure AddRegisterResult where
  register : List (BucketId × Bucket)
  counts : List String
  mergeCalls : List (Bucket × Bucket)
deriving DecidableEq, Repr

/-- `Receiver.addRegister` (receiver.go lines 152-165): under the register
lock, look the incoming bucket's identity up; if absent insert the
bucket as a new entry, if present merge the existing entry with the
incoming bucket. -/
def addRegister (reg : List (BucketId × Bucket)) (b : Bucket) : AddRegisterResult :=
  match lookupReg reg b.id with
  | none =>
    { register := (b.id, b) :: reg
      counts := ["receiver.add-bucket"]
      mergeCalls := [] }
  | some old =>
    { register := updateReg reg b.id (old.merge b)
      counts := ["receiver.merge-bucket"]
      mergeCalls := [(old, b)] }

/-- The receiver state visible to the accept loop: the register, the
in-flight counter (`sync.WaitGroup` as an integer), the `Mchan.Count`
event trace (which carries the `receiver.drop` counter), and the trace
of merge invocations. -/
structure AcceptState where
  register : List (BucketId × Bucket)
  inFlight : Int
  counts : List String
  mergeCalls : List (Bucket × Bucket)
deriving DecidableEq, Repr

/-- The per-bucket body of `Receiver.accept`'s inner loop (receiver.go
lines 140-145): if the bucket's delay at the locally observed store time
is at most the deadline, `inFlight.Add(1)` and `addRegister`; otherwise
count `receiver.drop`.  Total: no error is returned to the caller in
either branch. -/
def acceptBucket (deadline storeTime : Int) (st : AcceptState) (b : Bucket) : AcceptState :=
  if b.id.delay storeTime ≤ deadline then
    let r := addRegister st.register b
    { register := r.register
      inFlight := st.inFlight + 1
      counts := st.counts ++ r.counts
      mergeCalls := st.mergeCalls ++ r.mergeCalls }
  else
    { st with counts := st.counts ++ ["receiver.drop"] }

/-- One iteration of `Receiver.accept`'s outer loop (receiver.go lines
118-149): process every bucket the parser produced for the request, then
`inFlight.Done()` for the request itself. -/
def acceptRequest (deadline storeTime : Int) (st : AcceptState) (bs : List Bucket) :
    AcceptState :=
  let st1 := bs.foldl (acceptBucket deadline storeTime) st
  { st1 with inFlight := st1.inFlight - 1 }

/-- `Receiver.Receive` (receiver.go lines 81-85): `inFlight.Add(1)` and
enqueue the request (the enqueue itself is represented by the caller
passing the request's buckets to `acceptRequest`). -/
def receive (st : AcceptState) : AcceptState :=
  { st with inFlight := st.inFlight + 1 }

/-- `Receiver.transfer` (receiver.go lines 173-182): under the register
lock, delete every entry of the map and send its bucket to the outbox. -/
def transfer : List (BucketId × Bucket) → List Bucket →
    List (BucketId × Bucket) × List Bucket
  | [], out => ([], out)
  | (_, b) :: rest, out => transfer rest (out ++ [b])

/-- What the persist-stage worker `Receiver.outlet` does and emits for one
bucket taken from the outbox: the `Store.Put` calls it makes, the error
log lines, the `Mchan.Count` events, the `Mchan.Time` events, any bucket
it re-enqueues, and the `inFlight.Done` calls. -/
structure PersistObs where
  putCalls : List Bucket
  errorLogs : Nat
  counts : List String
  timers : List String
  requeued : List Bucket
  doneCalls : Nat
deriving DecidableEq, Repr

/-- Concatenation of persist-stage observations of consecutive loop
iterations. -/
def PersistObs.append (a b : PersistObs) : PersistObs :=
  { putCalls := a.putCalls ++ b.putCalls
    errorLogs := a.errorLogs + b.errorLogs
    counts := a.counts ++ b.counts
    timers := a.timers ++ b.timers
    requeued := a.requeued ++ b.requeued
    doneCalls := a.doneCalls + b.doneCalls }

/-- The body of `Receiver.outlet`'s loop (receiver.go lines 184-205) for
one bucket: call `Store.Put`; if it errs, log the error; either way emit
the `receiver.outlet` timer and `inFlight.Done()`.  `put b = some e`
represents `Put` returning error `e`, `none` represents success. -/
def outletBucket (put : Bucket → Option String) (b : Bucket) : PersistObs :=
  { putCalls := [b]
    errorLogs := match put b with | some _ => 1 | none => 0
    counts := []
    timers := ["receiver.outlet"]
    requeued := []
    doneCalls := 1 }

/-- `Receiver.outlet` run over a whole outbox: each bucket is processed in
turn; the loop never stops early. -/
def outletRun (put : Bucket → Option String) : List Bucket → PersistObs
  | [] => ⟨[], 0, [], [], [], 0⟩
  | b :: rest => (outletBucket put b).append (outletRun put rest)

/-- The receiver pipeline run sequentially: each payload goes through
`Receive` then `accept`; one transfer tick drains the register; the
persist workers process the whole outbox (with a never-failing store).
The result is the final value of the in-flight counter. -/
def runPipeline (deadline storeTime : Int) (payloads : List (List Bucket)) : Int :=
  let st0 : AcceptState := ⟨[], 0, [], []⟩
  let st := payloads.foldl (fun s bs => acceptRequest deadline storeTime (receive s) bs) st0
  let moved := transfer st.register []
  st.inFlight - (outletRun (fun _ => none) moved.2).doneCalls

/-- Well-formedness of the register map: every entry stores a bucket whose
identity equals the entry's key.  (`addRegister` inserts `b` under key
`*b.Id`, so this holds throughout.) -/
def WFReg (reg : List (BucketId × Bucket)) : Prop :=
  ∀ p ∈ reg, (p.2).id = p.1

/-- A concrete sample bucket used by the witness theorems. -/
def bSample : Bucket :=
  { id := { name := "router", units := "ms", source := "web", type := "measurement",
            auth := "key1", tags := "env:prod", time := 0, resolution := 60, readyAt := 60 }
    sum := 7, vals := [7] }

/-- A second sample bucket with a different identity. -/
def bSample2 : Bucket :=
  { id := { name := "worker", units := "ms", source := "web", type := "measurement",
            auth := "key1", tags := "env:prod", time := 0, resolution := 60, readyAt := 60 }
    sum := 3, vals := [3] }


/-- Modelled from the spec: `metrics.DataDog` (the `l2met/metrics` package
is not part of the shown source): one provider record — metric name,
host, tag list, statistical type, credential token, and time/value
points. -/
structure DataDog where
  metric : String
  host : String
  tags : List String
  type : String
  auth : String
  points : List (Int × Int)
deriving DecidableEq, Repr

/-- The capacity with which `groupByUser` pre-allocates each credential's
group (`make([]*metrics.DataDog, 1, 300)`): the group is flushed exactly
when its length reaches this capacity, so the slice's Go capacity stays
300 for the group's whole lifetime and `len == cap` means length 300. -/
def groupCap : Nat := 300

/-- First group of the given credential in the grouping map. -/
def lookupGrp : List (String × List DataDog) → String → Option (List DataDog)
  | [], _ => none
  | (k, v) :: rest, u => if k = u then some v else lookupGrp rest u

/-- Replace the group stored under an existing credential. -/
def updateGrp : List (String × List DataDog) → String → List DataDog →
    List (String × List DataDog)
  | [], _, _ => []
  | (k, v) :: rest, u, g =>
    if k = u then (k, g) :: rest else (k, v) :: updateGrp rest u g

/-- Delete a credential's entry from the grouping map. -/
def removeGrp : List (String × List DataDog) → String → List (String × List DataDog)
  | [], _ => []
  | (k, v) :: rest, u =>
    if k = u then rest else (k, v) :: removeGrp rest u

/-- Result of one `groupByUser` select iteration: the new grouping map and
the batches flushed to the outbox during that iteration. -/
structure GroupStepResult where
  groups : List (String × List DataDog)
  flushed : List (List DataDog)
deriving DecidableEq, Repr

/-- The record-arrival case of `groupByUser` (datadog_outlet.go lines
105-117): append the payload to its credential's group, creating the
group with the payload as single element if absent; then, if the group's
length has reached its capacity, send it to the outbox and delete it. -/
def recordStep (m : List (String × List DataDog)) (p : DataDog) : GroupStepResult :=
  match lookupGrp m p.auth with
  | none =>
    let g := [p]
    if g.length = groupCap then { groups := m, flushed := [g] }
    else { groups := (p.auth, g) :: m, flushed := [] }
  | some g0 =>
    let g := g0 ++ [p]
    if g.length = groupCap then { groups := removeGrp m p.auth, flushed := [g] }
    else { groups := updateGrp m p.auth g, flushed := [] }

/-- The tick case of `groupByUser` (datadog_outlet.go lines 98-104): send
every non-empty group to the outbox and delete every entry, leaving the
map empty. -/
def tickStep (m : List (String × List DataDog)) : GroupStepResult :=
  { groups := [], flushed := (m.map Prod.snd).filter (fun v => v.length > 0) }

/-- Outcome of `DataDogOutlet.postWithRetry`: some attempt succeeded, the
final attempt's error was returned, or the fall-through "Unable to
post." error after the loop. -/
inductive PostOutcome where
  | success
  | lastError (e : String)
  | unableToPost
deriving DecidableEq, Repr

/-- The loop of `DataDogOutlet.postWithRetry` (datadog_outlet.go lines
162-173) started at attempt index `i`: while `i <= numRetries`, call
`post`; on success return nil; on failure return the error if this was
attempt `numRetries`, else continue.  Falling out of the loop returns
the synthetic "Unable to post." error.  `post j = none` means attempt
`j` succeeds, `some e` that it fails with error `e`.  Returns the number
of post attempts made together with the outcome. -/
def postLoop (post : Nat → Option String) (numRetries : Int) (i : Nat) :
    Nat × PostOutcome :=
  if (i : Int) ≤ numRetries then
    match post i with
    | none => (1, PostOutcome.success)
    | some e =>
      if (i : Int) = numRetries then (1, PostOutcome.lastError e)
      else
        let r := postLoop post numRetries (i + 1)
        (r.1 + 1, r.2)
  else (0, PostOutcome.unableToPost)
termination_by (numRetries + 1 - (i : Int)).toNat
decreasing_by
  simp only [Nat.cast_add, Nat.cast_one]
  omega

/-- `DataDogOutlet.postWithRetry`: the loop started at attempt 0. -/
def postWithRetry (post : Nat → Option String) (numRetries : Int) : Nat × PostOutcome :=
  postLoop post numRetries 0

/-- What one iteration of the deliver worker `DataDogOutlet.outlet` does
and emits for one batch taken from the outbox: empty-batch log lines,
json-marshal error log lines, `json.Marshal` calls, the api keys
extracted from first records, post attempts made, and `outlet.drop`
measurements. -/
structure DeliverObs where
  emptyLogs : Nat
  jsonLogs : Nat
  serializeCalls : Nat
  apiKeys : List String
  postCalls : Nat
  drops : Nat
deriving DecidableEq, Repr

/-- Concatenation of deliver-stage observations of consecutive loop
iterations. -/
def DeliverObs.append (a b : DeliverObs) : DeliverObs :=
  { emptyLogs := a.emptyLogs + b.emptyLogs
    jsonLogs := a.jsonLogs + b.jsonLogs
    serializeCalls := a.serializeCalls + b.serializeCalls
    apiKeys := a.apiKeys ++ b.apiKeys
    postCalls := a.postCalls + b.postCalls
    drops := a.drops + b.drops }

/-- The body of `DataDogOutlet.outlet`'s loop (datadog_outlet.go lines
122-158) for one batch: if the batch has length < 1, log
`empty-metrics-error` and continue (no serialization, no network call);
otherwise take the api key from the first record, marshal the batch
(on marshal error log and continue), and post with retry, measuring one
`outlet.drop` when `postWithRetry` returns an error. -/
def deliverBatch (marshal : List DataDog → Option String) (post : Nat → Option String)
    (numRetries : Int) (payloads : List DataDog) : DeliverObs :=
  match payloads with
  | [] =>
    { emptyLogs := 1, jsonLogs := 0, serializeCalls := 0
      apiKeys := [], postCalls := 0, drops := 0 }
  | p :: _ =>
    match marshal payloads with
    | none =>
      { emptyLogs := 0, jsonLogs := 1, serializeCalls := 1
        apiKeys := [p.auth], postCalls := 0, drops := 0 }
    | some _ =>
      let r := postWithRetry post numRetries
      { emptyLogs := 0, jsonLogs := 0, serializeCalls := 1
        apiKeys := [p.auth], postCalls := r.1
        drops := if r.2 = PostOutcome.success then 0 else 1 }

/-- `DataDogOutlet.outlet` run over a whole outbox of batches: each batch
is processed in turn; the loop never stops early. -/
def deliverRun (marshal : List DataDog → Option String) (post : Nat → Option String)
    (numRetries : Int) : List (List DataDog) → DeliverObs
  | [] => ⟨0, 0, 0, [], 0, 0⟩
  | bt :: rest =>
    (deliverBatch marshal post numRetries bt).append
      (deliverRun marshal post numRetries rest)

/-- Well-formedness of the grouping map between `groupByUser` iterations:
every entry's group is non-empty, strictly below the flush capacity, and
all of its records carry the entry's credential. -/
def WFGroups (m : List (String × List DataDog)) : Prop :=
  ∀ q ∈ m, q.2 ≠ [] ∧ q.2.length < groupCap ∧ ∀ r ∈ q.2, r.auth = q.1

/-- The batch invariant the deliver stage relies on: non-empty, at most
`groupCap` records, and one credential shared by all records. -/
def GoodBatch (bt : List DataDog) : Prop :=
  bt ≠ [] ∧ bt.length ≤ groupCap ∧ ∃ a, ∀ q ∈ bt, q.auth = a

/-- A concrete sample provider record used by the witness theorems. -/
def ddSample : DataDog :=
  { metric := "router.service.time", host := "web", tags := ["env:prod"]
    type := "gauge", auth := "key1", points := [(60, 7)] }

/-- A second sample record with the same credential. -/
def ddSample2 : DataDog :=
  { metric := "worker.jobs", host := "web", tags := ["env:prod"]
    type := "counter", auth := "key1", points := [(60, 3)] }

theorem lookupReg_wf (reg : List (BucketId × Bucket)) (i : BucketId) (v : Bucket)
    (h : WFReg reg) (hl : lookupReg reg i = some v) : v.id = i := by
  induction reg with
  | nil => simp [lookupReg] at hl
  | cons p rest ih =>
    obtain ⟨k, w⟩ := p
    simp only [lookupReg] at hl
    by_cases hk : k = i
    · rw [if_pos hk] at hl
      injection hl with hwv
      subst hwv
      have hw := h (k, w) (List.mem_cons_self _ _)
      simpa [hk] using hw
    · rw [if_neg hk] at hl
      exact ih (fun q hq => h q (List.mem_cons_of_mem _ hq)) hl

theorem updateReg_wf (reg : List (BucketId × Bucket)) (i : BucketId) (v : Bucket)
    (h : WFReg reg) (hv : v.id = i) : WFReg (updateReg reg i v) := by
  induction reg with
  | nil => simp [updateReg, WFReg]
  | cons p rest ih =>
    obtain ⟨k, w⟩ := p
    simp only [updateReg]
    by_cases hk : k = i
    · rw [if_pos hk]
      intro q hq
      rcases List.mem_cons.mp hq with hq | hq
      · subst hq; simpa [hk] using hv
      · exact h q (List.mem_cons_of_mem _ hq)
    · rw [if_neg hk]
      intro q hq
      rcases List.mem_cons.mp hq with hq | hq
      · subst hq; exact h (k, w) (List.mem_cons_self _ _)
      · exact ih (fun p hp => h p (List.mem_cons_of_mem _ hp)) q hq

theorem transfer_eq (reg : List (BucketId × Bucket)) (out : List Bucket) :
    transfer reg out = ([], out ++ reg.map Prod.snd) := by
  induction reg generalizing out with
  | nil => simp [transfer]
  | cons p rest ih =>
    obtain ⟨k, b⟩ := p
    simp [transfer, ih]

/-- C1.  Transfer drain postcondition: one transfer tick leaves the
register map empty, and every bucket present in the register immediately
before the tick is placed on the outbound queue exactly once — the new
outbox is the old outbox followed by exactly the register's buckets, so
no bucket is lost and none is duplicated. -/
theorem transfer_drain (reg : List (BucketId × Bucket)) (out : List Bucket) :
    (transfer reg out).1 = [] ∧
    (transfer reg out).2 = out ++ reg.map Prod.snd ∧
    ∀ b : Bucket, (transfer reg out).2.count b
      = out.count b + (reg.map Prod.snd).count b := by
  rw [transfer_eq]
  exact ⟨rfl, rfl, fun b => List.count_append b out (reg.map Prod.snd)⟩

/-- C2.  Deadline admission boundary: a parsed bucket is merged into the
register (via `addRegister`, with `inFlight.Add(1)`) exactly when its
window age at the locally observed store time is at most the deadline;
in particular age = deadline is admitted, and age = deadline + 1 (or any
age beyond the deadline) is discarded with one `receiver.drop` count
emitted and the register untouched.  `acceptBucket` is a total function,
so neither branch returns an error to the caller. -/
theorem accept_deadline_boundary (deadline storeTime : Int) (st : AcceptState) (b : Bucket) :
    (b.id.delay storeTime ≤ deadline →
      acceptBucket deadline storeTime st b =
        { register := (addRegister st.register b).register
          inFlight := st.inFlight + 1
          counts := st.counts ++ (addRegister st.register b).counts
          mergeCalls := st.mergeCalls ++ (addRegister st.register b).mergeCalls }) ∧
    (b.id.delay storeTime = deadline →
      acceptBucket deadline storeTime st b =
        { register := (addRegister st.register b).register
          inFlight := st.inFlight + 1
          counts := st.counts ++ (addRegister st.register b).counts
          mergeCalls := st.mergeCalls ++ (addRegister st.register b).mergeCalls }) ∧
    (deadline < b.id.delay storeTime →
      acceptBucket deadline storeTime st b =
        { st with counts := st.counts ++ ["receiver.drop"] }) ∧
    (b.id.delay storeTime = deadline + 1 →
      acceptBucket deadline storeTime st b =
        { st with counts := st.counts ++ ["receiver.drop"] }) := by
  refine ⟨fun h => ?_, fun h => ?_, fun h => ?_, fun h => ?_⟩
  · simp [acceptBucket, if_pos h]
  · simp [acceptBucket, if_pos (le_of_eq h)]
  · simp [acceptBucket, if_neg (not_le.mpr h)]
  · have hgt : deadline < b.id.delay storeTime := by omega
    simp [acceptBucket, if_neg (not_le.mpr hgt)]

/-- Witness for C2: with deadline 5, the sample bucket (window start 0)
is admitted when observed at time 5 (age exactly the deadline) and
dropped when observed at time 6 (age deadline + 1). -/
theorem accept_deadline_boundary_witness :
    (acceptBucket 5 5 ⟨[], 0, [], []⟩ bSample).inFlight = 0 + 1 ∧
    (acceptBucket 5 6 ⟨[], 0, [], []⟩ bSample).counts = [] ++ ["receiver.drop"] := by
  constructor
  · rw [(accept_deadline_boundary 5 5 ⟨[], 0, [], []⟩ bSample).2.1 (by decide)]
  · rw [(accept_deadline_boundary 5 6 ⟨[], 0, [], []⟩ bSample).2.2.2 (by decide)]

/-- C8.  Register insert-or-merge: `addRegister` performs a keyed lookup
of the incoming bucket's identity under the lock; if absent it inserts
the bucket as a new entry, if present it merges the existing entry with
the incoming bucket; consequently every `Merge` invocation it makes is
on two buckets with equal identities, and well-formedness of the
register (stored bucket's identity = entry key) is preserved. -/
theorem addRegister_insert_or_merge (reg : List (BucketId × Bucket)) (b : Bucket)
    (h : WFReg reg) :
    (lookupReg reg b.id = none →
      (addRegister reg b).register = (b.id, b) :: reg ∧
      (addRegister reg b).mergeCalls = []) ∧
    (∀ old, lookupReg reg b.id = some old →
      (addRegister reg b).register = updateReg reg b.id (old.merge b) ∧
      (addRegister reg b).mergeCalls = [(old, b)]) ∧
    (∀ x y, (x, y) ∈ (addRegister reg b).mergeCalls → x.id = y.id) ∧
    WFReg (addRegister reg b).register := by
  refine ⟨fun hn => ?_, fun old ho => ?_, ?_, ?_⟩
  · simp [addRegister, hn]
  · simp [addRegister, ho]
  · intro x y hxy
    cases hl : lookupReg reg b.id with
    | none => simp [addRegister, hl] at hxy
    | some old =>
      simp [addRegister, hl] at hxy
      obtain ⟨hx, hy⟩ := hxy
      rw [hx, hy]
      exact lookupReg_wf reg b.id old h hl
  · cases hl : lookupReg reg b.id with
    | none =>
      simp only [addRegister, hl]
      intro q hq
      rcases List.mem_cons.mp hq with hq | hq
      · subst hq; rfl
      · exact h q hq
    | some old =>
      simp only [addRegister, hl]
      have hid : old.id = b.id := lookupReg_wf reg b.id old h hl
      exact updateReg_wf reg b.id (old.merge b) h (by simp [Bucket.merge, hid])

/-- Witness for C8: a one-entry well-formed register; adding a bucket with
a fresh identity inserts it, adding a bucket with the existing identity
merges, and the merge call pairs equal identities. -/
theorem addRegister_insert_or_merge_witness :
    ((addRegister [(bSample.id, bSample)] bSample2).register
        = (bSample2.id, bSample2) :: [(bSample.id, bSample)] ∧
      (addRegister [(bSample.id, bSample)] bSample2).mergeCalls = []) ∧
    ((addRegister [(bSample.id, bSample)] bSample).register
        = updateReg [(bSample.id, bSample)] bSample.id (bSample.merge bSample) ∧
      (addRegister [(bSample.id, bSample)] bSample).mergeCalls = [(bSample, bSample)]) := by
  constructor
  · exact (addRegister_insert_or_merge [(bSample.id, bSample)] bSample2
      (by unfold WFReg; decide)).1 (by decide)
  · exact (addRegister_insert_or_merge [(bSample.id, bSample)] bSample
      (by unfold WFReg; decide)).2.1 bSample (by decide)

/-- C4 (code bug).  In-flight counter imbalance: submit one payload whose
two measurements are admitted with the same identity (deadline 0,
observed age 0), so they merge into one register entry.  The accept loop
calls `inFlight.Add(1)` once per admitted bucket but the merged entry
triggers only one `inFlight.Done()` in the persist stage, so after the
transfer tick and full persistence (no store errors) the counter is 1,
not 0, and `Wait` would block forever. -/
theorem inflight_merge_leak :
    runPipeline 0 0 [[bSample, bSample]] = 1 ∧ (1 : Int) ≠ 0 :=
  ⟨by decide, by decide⟩

/-- C5 counterexample: on a failing `Store.Put` the persist worker emits
no `Mchan` count event at all (it only logs and emits the unconditional
`receiver.outlet` timer), refuting "the failure is recorded to an
observability counter". -/
theorem persist_failure_counterexample :
    (outletBucket (fun _ => some "io error") bSample).errorLogs = 1 ∧
    ¬ (outletBucket (fun _ => some "io error") bSample).counts ≠ [] :=
  ⟨rfl, by decide⟩

/-- C5 (amended).  Persistence failure handling: for every bucket whose
`Store.Put` returns an error, the failure is logged (but no
observability count event is emitted — only the same `receiver.outlet`
timer as on success); the bucket is put exactly once (not retried) and
not re-enqueued, the worker continues with the next bucket, and no error
is propagated (`outletRun` is total and processes the rest). -/
theorem persist_failure_amended (put : Bucket → Option String) (b : Bucket) (e : String)
    (rest : List Bucket) (h : put b = some e) :
    (outletBucket put b).errorLogs = 1 ∧
    (outletBucket put b).counts = [] ∧
    (outletBucket put b).timers = ["receiver.outlet"] ∧
    (outletBucket put b).putCalls = [b] ∧
    (outletBucket put b).requeued = [] ∧
    outletRun put (b :: rest) = (outletBucket put b).append (outletRun put rest) := by
  refine ⟨?_, rfl, rfl, rfl, rfl, rfl⟩
  simp [outletBucket, h]

/-- Witness for C5 (amended): a store that always fails, on the sample
bucket followed by one more bucket. -/
theorem persist_failure_amended_witness :
    (outletBucket (fun _ => some "io") bSample).errorLogs = 1 ∧
    (outletBucket (fun _ => some "io") bSample).counts = [] ∧
    (outletBucket (fun _ => some "io") bSample).timers = ["receiver.outlet"] ∧
    (outletBucket (fun _ => some "io") bSample).putCalls = [bSample] ∧
    (outletBucket (fun _ => some "io") bSample).requeued = [] ∧
    outletRun (fun _ => some "io") (bSample :: [bSample2])
      = (outletBucket (fun _ => some "io") bSample).append
          (outletRun (fun _ => some "io") [bSample2]) :=
  persist_failure_amended (fun _ => some "io") bSample "io" [bSample2] rfl

theorem lookupGrp_wf (m : List (String × List DataDog)) (u : String) (g : List DataDog)
    (h : WFGroups m) (hl : lookupGrp m u = some g) :
    g ≠ [] ∧ g.length < groupCap ∧ ∀ r ∈ g, r.auth = u := by
  induction m with
  | nil => simp [lookupGrp] at hl
  | cons q rest ih =>
    obtain ⟨k, v⟩ := q
    simp only [lookupGrp] at hl
    by_cases hk : k = u
    · rw [if_pos hk] at hl
      injection hl with hvg
      have hq := h (k, v) (List.mem_cons_self _ _)
      rw [← hvg]
      exact ⟨hq.1, hq.2.1, fun r hr => (hq.2.2 r hr).trans hk⟩
    · rw [if_neg hk] at hl
      exact ih (fun q hq => h q (List.mem_cons_of_mem _ hq)) hl

theorem removeGrp_mem (m : List (String × List DataDog)) (u : String)
    (q : String × List DataDog) (hq : q ∈ removeGrp m u) : q ∈ m := by
  induction m with
  | nil => simp [removeGrp] at hq
  | cons p rest ih =>
    obtain ⟨k, v⟩ := p
    simp only [removeGrp] at hq
    by_cases hk : k = u
    · rw [if_pos hk] at hq
      exact List.mem_cons_of_mem _ hq
    · rw [if_neg hk] at hq
      rcases List.mem_cons.mp hq with hq | hq
      · exact hq ▸ List.mem_cons_self _ _
      · exact List.mem_cons_of_mem _ (ih hq)

theorem updateGrp_wf (m : List (String × List DataDog)) (u : String) (g : List DataDog)
    (h : WFGroups m) (hg : g ≠ [] ∧ g.length < groupCap ∧ ∀ r ∈ g, r.auth = u) :
    WFGroups (updateGrp m u g) := by
  induction m with
  | nil => simp [updateGrp, WFGroups]
  | cons p rest ih =>
    obtain ⟨k, v⟩ := p
    simp only [updateGrp]
    by_cases hk : k = u
    · rw [if_pos hk]
      intro q hq
      rcases List.mem_cons.mp hq with hq | hq
      · subst hq
        exact ⟨hg.1, hg.2.1, fun r hr => (hg.2.2 r hr).trans hk.symm⟩
      · exact h q (List.mem_cons_of_mem _ hq)
    · rw [if_neg hk]
      intro q hq
      rcases List.mem_cons.mp hq with hq | hq
      · subst hq; exact h (k, v) (List.mem_cons_self _ _)
      · exact ih (fun q hq => h q (List.mem_cons_of_mem _ hq)) q hq

/-- C6.  Batch flush triggers: a credential's group is created on the
first arriving record as the single-element group (pre-allocated at
capacity `groupCap` = 300 in the source, which is why the flush test
`len == cap` means length 300); appending the record that brings the
group's length to the cap flushes exactly that group immediately and
removes the entry; an under-cap append just stores the grown group; on a
tick every non-empty group is flushed and the map is emptied, so a lone
record is flushed by the next tick. -/
theorem batch_flush_triggers :
    (∀ m (p : DataDog), lookupGrp m p.auth = none →
      recordStep m p = { groups := (p.auth, [p]) :: m, flushed := [] }) ∧
    (∀ m (p : DataDog) g, lookupGrp m p.auth = some g → g.length + 1 = groupCap →
      recordStep m p = { groups := removeGrp m p.auth, flushed := [g ++ [p]] }) ∧
    (∀ m (p : DataDog) g, lookupGrp m p.auth = some g → g.length + 1 ≠ groupCap →
      recordStep m p = { groups := updateGrp m p.auth (g ++ [p]), flushed := [] }) ∧
    (∀ m, (tickStep m).groups = [] ∧
      ∀ u g, (u, g) ∈ m → g ≠ [] → g ∈ (tickStep m).flushed) ∧
    (∀ u (p : DataDog), tickStep [(u, [p])] = { groups := [], flushed := [[p]] }) := by
  refine ⟨fun m p hl => ?_, fun m p g hl hcap => ?_, fun m p g hl hcap => ?_,
    fun m => ⟨rfl, fun u g hm hne => ?_⟩, fun u p => ?_⟩
  · simp [recordStep, hl, groupCap]
  · simp only [recordStep, hl, List.length_append, List.length_singleton]
    rw [if_pos hcap]
  · simp only [recordStep, hl, List.length_append, List.length_singleton]
    rw [if_neg hcap]
  · simp only [tickStep, List.mem_filter]
    refine ⟨List.mem_map.mpr ⟨(u, g), hm, rfl⟩, ?_⟩
    simpa using List.length_pos.mpr hne
  · simp [tickStep]

/-- Witness for C6: creation on a first record; cap flush on a 299-record
group receiving its 300th; under-cap append; lone record flushed by the
tick. -/
theorem batch_flush_triggers_witness :
    recordStep [] ddSample = { groups := [("key1", [ddSample])], flushed := [] } ∧
    recordStep [("key1", List.replicate 299 ddSample2)] ddSample =
      { groups := removeGrp [("key1", List.replicate 299 ddSample2)] "key1"
        flushed := [List.replicate 299 ddSample2 ++ [ddSample]] } ∧
    recordStep [("key1", [ddSample2])] ddSample =
      { groups := updateGrp [("key1", [ddSample2])] "key1" ([ddSample2] ++ [ddSample])
        flushed := [] } ∧
    tickStep [("key1", [ddSample])] = { groups := [], flushed := [[ddSample]] } := by
  refine ⟨?_, ?_, ?_, ?_⟩
  · exact batch_flush_triggers.1 [] ddSample rfl
  · exact batch_flush_triggers.2.1 [("key1", List.replicate 299 ddSample2)] ddSample
      (List.replicate 299 ddSample2) (by rfl)
      (by rw [List.length_replicate]; decide)
  · exact batch_flush_triggers.2.2.1 [("key1", [ddSample2])] ddSample [ddSample2]
      (by rfl) (by simp [groupCap])
  · exact batch_flush_triggers.2.2.2.2 "key1" ddSample

/-- C7.  Batch invariant: starting from a well-formed grouping map (as the
empty initial map is), both `groupByUser` cases preserve well-formedness
and only emit batches that are non-empty, of length at most `groupCap` =
300, and whose records all carry one credential token; the deliver stage
then reads the whole batch's credential off the first record. -/
theorem batch_emission_invariant (m : List (String × List DataDog)) (h : WFGroups m) :
    WFGroups ([] : List (String × List DataDog)) ∧
    (∀ p : DataDog, WFGroups (recordStep m p).groups ∧
      ∀ bt ∈ (recordStep m p).flushed, GoodBatch bt) ∧
    (WFGroups (tickStep m).groups ∧
      ∀ bt ∈ (tickStep m).flushed, GoodBatch bt) ∧
    (∀ (marshal : List DataDog → Option String) (post : Nat → Option String)
      (numRetries : Int) (a : String) (p : DataDog) (rest : List DataDog),
      (∀ q ∈ p :: rest, q.auth = a) →
      (deliverBatch marshal post numRetries (p :: rest)).apiKeys = [a]) := by
  refine ⟨fun q hq => absurd hq (List.not_mem_nil q), fun p => ?_, ⟨?_, ?_⟩, ?_⟩
  · cases hl : lookupGrp m p.auth with
    | none =>
      constructor
      · simp only [recordStep, hl, List.length_singleton]
        rw [if_neg (by simp [groupCap])]
        intro q hq
        rcases List.mem_cons.mp hq with hq | hq
        · subst hq
          exact ⟨by simp, by simp [groupCap], by simp⟩
        · exact h q hq
      · intro bt hbt
        simp only [recordStep, hl, List.length_singleton] at hbt
        rw [if_neg (by simp [groupCap])] at hbt
        simp at hbt
    | some g =>
      have hg := lookupGrp_wf m p.auth g h hl
      by_cases hcap : (g ++ [p]).length = groupCap
      · constructor
        · simp only [recordStep, hl]
          rw [if_pos hcap]
          intro q hq
          exact h q (removeGrp_mem m p.auth q hq)
        · intro bt hbt
          simp only [recordStep, hl] at hbt
          rw [if_pos hcap] at hbt
          simp only [List.mem_singleton] at hbt
          subst hbt
          refine ⟨by simp, le_of_eq hcap, p.auth, fun q hq => ?_⟩
          rcases List.mem_append.mp hq with hq | hq
          · exact hg.2.2 q hq
          · simp only [List.mem_singleton] at hq
            subst hq; rfl
      · constructor
        · simp only [recordStep, hl]
          rw [if_neg hcap]
          refine updateGrp_wf m p.auth (g ++ [p]) h ⟨by simp, ?_, fun r hr => ?_⟩
          · have := hg.2.1
            simp only [List.length_append, List.length_singleton] at hcap ⊢
            omega
          · rcases List.mem_append.mp hr with hr | hr
            · exact hg.2.2 r hr
            · simp only [List.mem_singleton] at hr
              subst hr; rfl
        · intro bt hbt
          simp only [recordStep, hl] at hbt
          rw [if_neg hcap] at hbt
          simp at hbt
  · intro q hq
    simp only [tickStep] at hq
    exact absurd hq (List.not_mem_nil q)
  · intro bt hbt
    simp only [tickStep, List.mem_filter] at hbt
    obtain ⟨hmem, hpos⟩ := hbt
    obtain ⟨⟨u, g⟩, hqm, hgbt⟩ := List.mem_map.mp hmem
    subst hgbt
    have hq := h (u, g) hqm
    exact ⟨hq.1, le_of_lt hq.2.1, u, hq.2.2⟩
  · intro marshal post numRetries a p rest hall
    have hp : p.auth = a := hall p (List.mem_cons_self _ _)
    cases hm : marshal (p :: rest) with
    | none => simp [deliverBatch, hm, hp]
    | some body => simp [deliverBatch, hm, hp]

/-- Witness for C7: a well-formed one-entry map; a record arrival and a
tick preserve well-formedness, and the deliver stage extracts the shared
credential of a concrete uniform batch. -/
theorem batch_emission_invariant_witness :
    WFGroups (recordStep [("key1", [ddSample])] ddSample2).groups ∧
    WFGroups (tickStep [("key1", [ddSample])]).groups ∧
    (deliverBatch (fun _ => some "{}") (fun _ => none) 0
      (ddSample :: [ddSample2])).apiKeys = ["key1"] := by
  have hwf : WFGroups [("key1", [ddSample])] := by
    unfold WFGroups; decide
  refine ⟨?_, ?_, ?_⟩
  · exact ((batch_emission_invariant [("key1", [ddSample])] hwf).2.1 ddSample2).1
  · exact (batch_emission_invariant [("key1", [ddSample])] hwf).2.2.1.1
  · exact (batch_emission_invariant [("key1", [ddSample])] hwf).2.2.2
      (fun _ => some "{}") (fun _ => none) 0 "key1" ddSample [ddSample2] (by decide)

/-- C9.  Empty-batch rejection: a zero-length batch read from the delivery
queue produces exactly one `empty-metrics-error` log line, no
serialization and no post attempt and no drop, and the worker continues
with the subsequent batches. -/
theorem empty_batch_skip (marshal : List DataDog → Option String)
    (post : Nat → Option String) (numRetries : Int) (rest : List (List DataDog)) :
    deliverBatch marshal post numRetries [] =
      { emptyLogs := 1, jsonLogs := 0, serializeCalls := 0
        apiKeys := [], postCalls := 0, drops := 0 } ∧
    deliverRun marshal post numRetries ([] :: rest) =
      (deliverBatch marshal post numRetries []).append
        (deliverRun marshal post numRetries rest) :=
  ⟨rfl, rfl⟩

theorem postLoop_out (post : Nat → Option String) (N : Int) (i : Nat)
    (h : ¬ (i : Int) ≤ N) : postLoop post N i = (0, PostOutcome.unableToPost) := by
  rw [postLoop.eq_def, if_neg h]

theorem postLoop_succ (post : Nat → Option String) (N : Int) (i : Nat)
    (hi : (i : Int) ≤ N) (hp : post i = none) :
    postLoop post N i = (1, PostOutcome.success) := by
  rw [postLoop.eq_def, if_pos hi, hp]

theorem postLoop_last (post : Nat → Option String) (N : Int) (i : Nat) (e : String)
    (hi : (i : Int) ≤ N) (hp : post i = some e) (heq : (i : Int) = N) :
    postLoop post N i = (1, PostOutcome.lastError e) := by
  rw [postLoop.eq_def, if_pos hi, hp]
  simp [heq]

theorem postLoop_cont (post : Nat → Option String) (N : Int) (i : Nat) (e : String)
    (hi : (i : Int) ≤ N) (hp : post i = some e) (hne : ¬ (i : Int) = N) :
    postLoop post N i = ((postLoop post N (i + 1)).1 + 1, (postLoop post N (i + 1)).2) := by
  conv_lhs => rw [postLoop.eq_def]
  rw [if_pos hi, hp]
  simp [hne]

theorem postLoop_success_gen (post : Nat → Option String) (N : Int) (k : Nat)
    (hk : (k : Int) ≤ N) (hsucc : post k = none) :
    ∀ d i, k = i + d → (∀ j, i ≤ j → j < k → (post j).isSome) →
      postLoop post N i = (d + 1, PostOutcome.success) := by
  intro d
  induction d with
  | zero =>
    intro i hi hfail
    obtain rfl : i = k := by omega
    exact postLoop_succ post N i hk hsucc
  | succ d ih =>
    intro i hi hfail
    have hik : i < k := by omega
    obtain ⟨e, he⟩ := Option.isSome_iff_exists.mp (hfail i (Nat.le_refl i) hik)
    have hiN : (i : Int) ≤ N := by omega
    have hne : ¬ (i : Int) = N := by omega
    rw [postLoop_cont post N i e hiN he hne,
      ih (i + 1) (by omega) (fun j hj1 hj2 => hfail j (by omega) hj2)]

theorem postLoop_allfail_gen (post : Nat → Option String) (N : Int) :
    ∀ (d i : Nat), (i : Int) + d = N →
      (∀ j : Nat, i ≤ j → (j : Int) ≤ N → (post j).isSome) →
      ∃ e, post (i + d) = some e ∧
        postLoop post N i = (d + 1, PostOutcome.lastError e) := by
  intro d
  induction d with
  | zero =>
    intro i hi hall
    obtain ⟨e, he⟩ := Option.isSome_iff_exists.mp (hall i (Nat.le_refl i) (by omega))
    exact ⟨e, by simpa using he, postLoop_last post N i e (by omega) he (by omega)⟩
  | succ d ih =>
    intro i hi hall
    obtain ⟨e0, he0⟩ := Option.isSome_iff_exists.mp (hall i (Nat.le_refl i) (by omega))
    obtain ⟨e, he, hrec⟩ := ih (i + 1) (by omega) (fun j hj1 hj2 => hall j (by omega) hj2)
    refine ⟨e, ?_, ?_⟩
    · have harr : i + (d + 1) = (i + 1) + d := by omega
      rw [harr]; exact he
    · rw [postLoop_cont post N i e0 (by omega) he0 (by omega), hrec]

theorem postLoop_posts_le (post : Nat → Option String) (N : Int) :
    ∀ (f i : Nat), (N + 1 - (i : Int)).toNat ≤ f →
      (postLoop post N i).1 ≤ (N + 1 - (i : Int)).toNat := by
  intro f
  induction f with
  | zero =>
    intro i hf
    rw [postLoop_out post N i (by omega)]
    exact Nat.zero_le _
  | succ f ih =>
    intro i hf
    by_cases hi : (i : Int) ≤ N
    · cases hp : post i with
      | none =>
        rw [postLoop_succ post N i hi hp]
        exact (by omega : (1 : Nat) ≤ (N + 1 - (i : Int)).toNat)
      | some e =>
        by_cases heq : (i : Int) = N
        · rw [postLoop_last post N i e hi hp heq]
          exact (by omega : (1 : Nat) ≤ (N + 1 - (i : Int)).toNat)
        · rw [postLoop_cont post N i e hi hp heq]
          have hb := ih (i + 1) (by omega)
          exact (by omega :
            (postLoop post N (i + 1)).1 + 1 ≤ (N + 1 - (i : Int)).toNat)
    · rw [postLoop_out post N i hi]
      exact Nat.zero_le _

theorem postLoop_no_fallthrough (post : Nat → Option String) (N : Int) :
    ∀ (f i : Nat), (N + 1 - (i : Int)).toNat ≤ f → (i : Int) ≤ N →
      (postLoop post N i).2 ≠ PostOutcome.unableToPost := by
  intro f
  induction f with
  | zero => intro i hf hi; omega
  | succ f ih =>
    intro i hf hi
    cases hp : post i with
    | none =>
      rw [postLoop_succ post N i hi hp]
      simp
    | some e =>
      by_cases heq : (i : Int) = N
      · rw [postLoop_last post N i e hi hp heq]
        simp
      · rw [postLoop_cont post N i e hi hp heq]
        exact ih (i + 1) (by omega) (by omega)

/-- C3.  Retry budget: with a configured retry count N ≥ 0,
`postWithRetry` makes at most N + 1 post attempts; if the first k ≤ N
attempts all fail and attempt k + 1 (index k) succeeds it returns
success after exactly k + 1 attempts; if all N + 1 attempts fail it
returns the last attempt's error after exactly N + 1 attempts; and the
calling `outlet` worker measures `outlet.drop` exactly once for a batch
whose posts are all exhausted and not at all for a batch whose post
eventually succeeds. -/
theorem retry_budget (post : Nat → Option String) (N : Int) (hN : 0 ≤ N) :
    (postWithRetry post N).1 ≤ (N + 1).toNat ∧
    (∀ k : Nat, (k : Int) ≤ N → (∀ j, j < k → (post j).isSome) → post k = none →
      postWithRetry post N = (k + 1, PostOutcome.success)) ∧
    ((∀ j : Nat, (j : Int) ≤ N → (post j).isSome) →
      ∃ e, post N.toNat = some e ∧
        postWithRetry post N = ((N + 1).toNat, PostOutcome.lastError e)) ∧
    (∀ (marshal : List DataDog → Option String) (p : DataDog) (rest : List DataDog)
      (body : String), marshal (p :: rest) = some body →
      ((∀ j : Nat, (j : Int) ≤ N → (post j).isSome) →
        (deliverBatch marshal post N (p :: rest)).drops = 1) ∧
      (∀ k : Nat, (k : Int) ≤ N → (∀ j, j < k → (post j).isSome) → post k = none →
        (deliverBatch marshal post N (p :: rest)).drops = 0)) := by
  have hsucc : ∀ k : Nat, (k : Int) ≤ N → (∀ j, j < k → (post j).isSome) →
      post k = none → postWithRetry post N = (k + 1, PostOutcome.success) := by
    intro k hk hfail hs
    have := postLoop_success_gen post N k hk hs k 0 (by omega)
      (fun j hj1 hj2 => hfail j hj2)
    simpa [postWithRetry] using this
  have hfailall : (∀ j : Nat, (j : Int) ≤ N → (post j).isSome) →
      ∃ e, post N.toNat = some e ∧
        postWithRetry post N = ((N + 1).toNat, PostOutcome.lastError e) := by
    intro hall
    obtain ⟨e, he, hrun⟩ := postLoop_allfail_gen post N N.toNat 0 (by omega)
      (fun j hj1 hj2 => hall j hj2)
    refine ⟨e, by simpa using he, ?_⟩
    have harr : (N + 1).toNat = N.toNat + 1 := by omega
    rw [harr]
    simpa [postWithRetry] using hrun
  refine ⟨?_, hsucc, hfailall, ?_⟩
  · have := postLoop_posts_le post N (N + 1 - ((0 : Nat) : Int)).toNat 0 (Nat.le_refl _)
    simpa [postWithRetry] using this
  · intro marshal p rest body hm
    constructor
    · intro hall
      obtain ⟨e, _, hrun⟩ := hfailall hall
      simp [deliverBatch, hm, hrun]
    · intro k hk hfail hs
      have hrun := hsucc k hk hfail hs
      simp [deliverBatch, hm, hrun]

/-- Witness for C3 at N = 1: two attempts at most; one failure then a
success reports success after 2 attempts; two failures report the last
error after 2 attempts and make the deliver worker drop the batch
once. -/
theorem retry_budget_witness :
    (postWithRetry (fun _ => some "err") 1).1 ≤ (1 + 1 : Int).toNat ∧
    postWithRetry (fun j => if j = 0 then some "e0" else none) 1 =
      (1 + 1, PostOutcome.success) ∧
    (∃ e, (fun _ => (some "err" : Option String)) (1 : Int).toNat = some e ∧
      postWithRetry (fun _ => some "err") 1 =
        ((1 + 1 : Int).toNat, PostOutcome.lastError e)) ∧
    (deliverBatch (fun _ => some "{}") (fun _ => some "err") 1 (ddSample :: [])).drops
      = 1 := by
  refine ⟨?_, ?_, ?_, ?_⟩
  · exact (retry_budget (fun _ => some "err") 1 (by decide)).1
  · exact (retry_budget (fun j => if j = 0 then some "e0" else none) 1 (by decide)).2.1
      1 (by decide) (fun j hj => by
        have hj0 : j = 0 := by omega
        simp [hj0]) rfl
  · exact (retry_budget (fun _ => some "err") 1 (by decide)).2.2.1 (fun j hj => rfl)
  · exact ((retry_budget (fun _ => some "err") 1 (by decide)).2.2.2
      (fun _ => some "{}") ddSample [] "{}" rfl).1 (fun j hj => rfl)

/-- C10.  Loop-exit safety of `postWithRetry`: with a non-negative
configured retry count the loop always returns from inside (success or
the last attempt's error), so the fall-through "Unable to post." return
is unreachable; with a negative retry count the loop body never runs —
no post attempt is made — and exactly that synthetic error is
returned. -/
theorem postWithRetry_loop_exit (post : Nat → Option String) (N : Int) :
    (0 ≤ N → (postWithRetry post N).2 ≠ PostOutcome.unableToPost) ∧
    (N < 0 → postWithRetry post N = (0, PostOutcome.unableToPost)) := by
  constructor
  · intro hN
    exact postLoop_no_fallthrough post N (N + 1 - ((0 : Nat) : Int)).toNat 0
      (Nat.le_refl _) (by omega)
  · intro hN
    exact postLoop_out post N 0 (by omega)

/-- Witness for C10: at retry count 0 the outcome is not the synthetic
error; at retry count -1 no attempt is made and the synthetic error is
returned. -/
theorem postWithRetry_loop_exit_witness :
    (postWithRetry (fun _ => some "err") 0).2 ≠ PostOutcome.unableToPost ∧
    postWithRetry (fun _ => some "err") (-1) = (0, PostOutcome.unableToPost) :=
  ⟨(postWithRetry_loop_exit (fun _ => some "err") 0).1 (by decide),
    (postWithRetry_loop_exit (fun _ => some "err") (-1)).2 (by decide)⟩

end LogShuttle
